import Mathlib

/-!  Verification development for the core of a fine-grained reactivity engine.

     Shallow embedding of:
     - `src/vue3Code/packages/reactivity/src/effect.ts` (effect runtime,
       track/trigger dependency graph),
     - `src/vue3Code/packages/reactivity/src/baseHandlers.ts` (base
       interceptor: createSetter, readonlyHandlers.deleteProperty),
     - `src/vue3Code/packages/reactivity/src/collectionHandlers.ts`
       (identity registry part: createReactiveObject, reactive, readonly,
       toRaw),
     - `src/unnamed/part_001` (ref cells),
     - `src/unnamed/part_003` (scheduler: flushJobs / checkRecursiveUpdates).

     JS objects are identified by natural-number ids.  JS `Map`s and
     `WeakMap`s are modelled as association lists (insertion order
     preserved, first binding wins, updates in place), JS `Set`s as
     duplicate-free lists in insertion order (matching JS `Set` iteration
     order).  Effects are identified by natural-number ids; per-effect
     metadata lives in an association list.  -/

namespace VueReactivity

/-- Association-list lookup keyed by decidable equality; models
    `Map.get` / `WeakMap.get` (returns `none` for a missing key, like JS
    `undefined`). -/
def lookupL {α β : Type} [DecidableEq α] : List (α × β) → α → Option β
  | [], _ => none
  | (a, b) :: rest, k => if a = k then some b else lookupL rest k

/-- Association-list insert-or-update; models `Map.set` / `WeakMap.set`
    (updates the existing binding in place, otherwise appends, preserving
    insertion order like a JS Map). -/
def insertL {α β : Type} [DecidableEq α] : List (α × β) → α → β → List (α × β)
  | [], k, v => [(k, v)]
  | (a, b) :: rest, k, v => if a = k then (k, v) :: rest else (a, b) :: insertL rest k v

/-- Association-list removal of a key; models `delete obj[key]` /
    `Map.delete`. -/
def removeL {α β : Type} [DecidableEq α] : List (α × β) → α → List (α × β)
  | [], _ => []
  | (a, b) :: rest, k => if a = k then rest else (a, b) :: removeL rest k

/-- Association-list in-place modification of the value bound to a key;
    no-op when the key is absent. -/
def modifyL {α β : Type} [DecidableEq α] : List (α × β) → α → (β → β) → List (α × β)
  | [], _, _ => []
  | (a, b) :: rest, k, f => if a = k then (a, f b) :: rest else (a, b) :: modifyL rest k f

/-!  ## Scheduler (src/unnamed/part_003)

     `flushJobs` dequeues jobs one at a time (`queue.shift()`), calling
     `checkRecursiveUpdates(seen, job)` before running each job; the
     `seen` count-map is threaded through the whole flush pass, including
     `flushPostFlushCbs` and the recursive `flushJobs` call.  Jobs are
     identified by natural-number ids; `processJobs` folds the check
     over the sequence of dequeues of one flush pass.  -/

def RECURSION_LIMIT : Nat := 100

/-- `checkRecursiveUpdates(seen, fn)` from src/unnamed/part_003: on first
    sight of `fn` store count 1; afterwards throw once the stored count
    exceeds `RECURSION_LIMIT`, otherwise increment. -/
def checkRecursiveUpdates (seen : List (Nat × Nat)) (fn : Nat) : Except String (List (Nat × Nat)) :=
  match lookupL seen fn with
  | none => .ok (insertL seen fn 1)
  | some count =>
    if RECURSION_LIMIT < count then
      .error "Maximum recursive updates exceeded. You may have code that is mutating state in your component render function or updated hook or watcher source function."
    else
      .ok (insertL seen fn (count + 1))

/-- One flush pass of `flushJobs`, abstracted over the sequence of jobs
    dequeued during that pass: every dequeue runs
    `checkRecursiveUpdates` first, and a thrown error aborts the pass. -/
def processJobs (seen : List (Nat × Nat)) : List Nat → Except String (List (Nat × Nat))
  | [] => .ok seen
  | j :: rest =>
    match checkRecursiveUpdates seen j with
    | .error e => .error e
    | .ok s => processJobs s rest

/-- Decidable observation of a failed (thrown) flush pass. -/
def isErr {α : Type} : Except String α → Bool
  | .error _ => true
  | .ok _ => false

/-!  ## Dependency keys and operation types
     (src/vue3Code/packages/reactivity/src/effect.ts, operations.ts)

     Property keys are strings; `ITERATE_KEY` is a unique symbol distinct
     from every string key, modelled as a separate constructor.  -/

inductive RKey where
  | prop : String → RKey
  | iterateKey : RKey
deriving DecidableEq, Repr

inductive TriggerOpTypes where
  | SET | ADD | DELETE | CLEAR
deriving DecidableEq, Repr

/-- A dep-set: JS `Set<ReactiveEffect>` kept as a duplicate-free list in
    insertion order. -/
abbrev Dep := List Nat

/-- JS `Map<any, Dep>` for one target. -/
abbrev KeyToDepMap := List (RKey × Dep)

/-- JS `WeakMap<any, KeyToDepMap>` keyed by target object id. -/
abbrev TargetMap := List (Nat × KeyToDepMap)

/-- Per-effect metadata of a `ReactiveEffect`: the `active` flag, whether
    `options.onStop` is present, and the owned dep list (`effect.deps`),
    where each owned dep-set is identified by its (target, key) address in
    the target map. -/
structure EffectRec where
  active : Bool
  hasOnStop : Bool
  deps : List (Nat × RKey)
deriving DecidableEq, Repr

/-- The process-wide mutable state of the effect runtime: per-effect
    records, the effect stack, the `activeEffect` pointer, the
    `shouldTrack` flag and the target map. -/
structure RState where
  effects : List (Nat × EffectRec)
  effectStack : List Nat
  activeEffect : Option Nat
  shouldTrack : Bool
  targetMap : TargetMap
deriving DecidableEq, Repr

def activeOf (st : RState) (e : Nat) : Bool :=
  ((lookupL st.effects e).map EffectRec.active).getD false

def depsOf (st : RState) (e : Nat) : List (Nat × RKey) :=
  ((lookupL st.effects e).map EffectRec.deps).getD []

/-- The dep-set currently stored in a target map under (target, key);
    empty when the target or the key has never been tracked. -/
def depIn (tm : TargetMap) (t : Nat) (k : RKey) : Dep :=
  (lookupL ((lookupL tm t).getD []) k).getD []

def depOf (st : RState) (t : Nat) (k : RKey) : Dep :=
  depIn st.targetMap t k

/-- `track(target, type, key)` from effect.ts.  Returns unchanged when
    tracking is paused or no effect is active; otherwise locates or
    creates the dep-set for (target, key) and, when the active effect is
    not yet a member, adds it and appends the dep to the active effect's
    owned dep list.  (When the active effect is already a member the
    source's get-or-create writes nothing new, so the state is
    unchanged.)  The dev-only `onTrack` hook is a diagnostic callback and
    is not modelled. -/
def track (st : RState) (target : Nat) (key : RKey) : RState :=
  if st.shouldTrack = false then st
  else
    match st.activeEffect with
    | none => st
    | some ae =>
      let depsMap := (lookupL st.targetMap target).getD []
      let dep := (lookupL depsMap key).getD []
      if ae ∈ dep then st
      else
        { st with
          targetMap := insertL st.targetMap target (insertL depsMap key (dep ++ [ae])),
          effects := modifyL st.effects ae
            (fun r => { r with deps := r.deps ++ [(target, key)] }) }

/-- One `deps[i].delete(effect)` step of `cleanup`: remove the effect
    from the dep-set stored at (t, k). -/
def removeEffectFromDep (tm : TargetMap) (t : Nat) (k : RKey) (e : Nat) : TargetMap :=
  match lookupL tm t with
  | none => tm
  | some dm =>
    match lookupL dm k with
    | none => tm
    | some dep => insertL tm t (insertL dm k (dep.erase e))

/-- `cleanup(effect)` from effect.ts: delete the effect from every
    dep-set in its owned dep list, then empty the dep list
    (`deps.length = 0`). -/
def cleanup (st : RState) (e : Nat) : RState :=
  { st with
    targetMap := (depsOf st e).foldl (fun tm tk => removeEffectFromDep tm tk.1 tk.2 e) st.targetMap,
    effects := modifyL st.effects e (fun r => { r with deps := [] }) }

/-- `run(effect, fn, args)` from effect.ts.  The body `fn` is an
    arbitrary state transformer (user code acting on the runtime state
    through the interceptors).
    - inactive effect: the raw function runs with no push/cleanup;
    - effect already on the effect stack: return immediately (the source
      falls off the end of the function — the body is NOT invoked);
    - otherwise: cleanup, push on the stack and set `activeEffect`, run
      the body, then pop and restore `activeEffect` to the new stack
      top. -/
def run (e : Nat) (fn : RState → RState) (st : RState) : RState :=
  if activeOf st e = false then fn st
  else if e ∈ st.effectStack then st
  else
    let st1 := cleanup st e
    let st2 := { st1 with effectStack := st1.effectStack ++ [e], activeEffect := some e }
    let st3 := fn st2
    { st3 with effectStack := st3.effectStack.dropLast,
               activeEffect := st3.effectStack.dropLast.getLast? }

/-- A body consisting of a sequence of tracked property reads: each read
    of (target, key) reaches `track` through the get interceptor. -/
def execReads : List (Nat × RKey) → RState → RState
  | [], s => s
  | (t, k) :: rest, s => execReads rest (track s t k)

/-- Running an effect whose body performs the given sequence of reads. -/
def runReads (e : Nat) (reads : List (Nat × RKey)) (st : RState) : RState :=
  run e (execReads reads) st

/-- `stop(effect)` from effect.ts.  Returns the new state together with
    whether the `onStop` callback was invoked. -/
def stop (st : RState) (e : Nat) : RState × Bool :=
  if activeOf st e = true then
    let st1 := cleanup st e
    let fired := ((lookupL st.effects e).map EffectRec.hasOnStop).getD false
    ({ st1 with effects := modifyL st1.effects e (fun r => { r with active := false }) }, fired)
  else (st, false)

/-!  ## trigger (effect.ts)

     `trigger(target, type, key)` receives the per-target
     `KeyToDepMap` (the result of `targetMap.get(target)`, `none` when
     the target has never been tracked) together with `isArray(target)`
     and the per-effect `computed` option flag (`iso`).  It returns the
     ordered list of effects handed to `scheduleRun`: all of
     `computedRunners` first, then `effects` (each a JS `Set`, i.e.
     deduplicated, iterated in insertion order).  -/

/-- JS `Set.add`: append unless already present. -/
def setAdd (s : List Nat) (x : Nat) : List Nat :=
  if x ∈ s then s else s ++ [x]

/-- `addRunners(effects, computedRunners, effectsToAdd)` from effect.ts:
    partition the contributed dep-set by the `computed` option.  The
    accumulator is (effects, computedRunners). -/
def addRunners (iso : Nat → Bool) (acc : List Nat × List Nat) :
    Option Dep → List Nat × List Nat
  | none => acc
  | some effectsToAdd =>
    effectsToAdd.foldl
      (fun ac e => if iso e then (ac.1, setAdd ac.2 e) else (setAdd ac.1 e, ac.2)) acc

/-- The iteration key chosen by `trigger` for ADD/DELETE: the `length`
    property for array targets, the `ITERATE_KEY` symbol otherwise. -/
def iterationKey (isArr : Bool) : RKey :=
  if isArr then .prop "length" else .iterateKey

/-- `trigger(target, type, key)` from effect.ts, returning the sequence
    of effects passed to `scheduleRun` in order
    (`computedRunners.forEach(run); effects.forEach(run)`). -/
def trigger (iso : Nat → Bool) (isArr : Bool) (depsMapOpt : Option KeyToDepMap)
    (ty : TriggerOpTypes) (key : Option RKey) : List Nat :=
  match depsMapOpt with
  | none => []
  | some depsMap =>
    let acc :=
      if ty = .CLEAR then
        depsMap.foldl (fun ac kd => addRunners iso ac (some kd.2)) ([], [])
      else
        let ac0 :=
          match key with
          | some k => addRunners iso ([], []) (lookupL depsMap k)
          | none => ([], [])
        if ty = .ADD ∨ ty = .DELETE then
          addRunners iso ac0 (lookupL depsMap (iterationKey isArr))
        else ac0
    acc.2 ++ acc.1

/-!  ## Identity registry and observable factory
     (src/vue3Code/packages/reactivity/src/collectionHandlers.ts,
     reactive/readonly/createReactiveObject/toRaw section)

     JS heap objects are identified by ids; the immutable, per-object
     facts consulted by `canObserve` (`_isVue`, `_isVNode`,
     `toRawType`, `isObject`) are supplied by an environment
     `info : Nat → ObjInfo`.  -/

inductive RawType where
  | object | array | map | set_ | weakMap | weakSet | other
deriving DecidableEq, Repr

/-- `isObservableType = makeMap('Object,Array,Map,Set,WeakMap,WeakSet')`. -/
def isObservableType : RawType → Bool
  | .other => false
  | _ => true

structure ObjInfo where
  isObj : Bool
  isVue : Bool
  isVNode : Bool
  rawType : RawType
deriving DecidableEq, Repr

/-- The four weak-keyed registry maps, the two advisory weak sets, and a
    fresh-id counter standing for allocation of new Proxy objects. -/
structure RegState where
  rawToReactive : List (Nat × Nat)
  reactiveToRaw : List (Nat × Nat)
  rawToReadonly : List (Nat × Nat)
  readonlyToRaw : List (Nat × Nat)
  readonlyValues : List Nat
  nonReactiveValues : List Nat
  nextId : Nat
deriving DecidableEq, Repr

/-- `canObserve(value)`: not a Vue instance, not a VNode, of observable
    raw type, and not marked non-reactive. -/
def canObserve (info : Nat → ObjInfo) (st : RegState) (v : Nat) : Bool :=
  !(info v).isVue && !(info v).isVNode && isObservableType (info v).rawType
    && !(st.nonReactiveValues.contains v)

/-- `createReactiveObject(target, toProxy, toRaw, baseHandlers,
    collectionHandlers)`.  `useReadonly` selects which map pair
    (`rawToReadonly`/`readonlyToRaw` vs `rawToReactive`/`reactiveToRaw`)
    plays the roles of `toProxy`/`toRaw`.  The handler choice
    (collection vs base interceptor) does not affect the registry, so it
    is not recorded.  Returns the updated registry and the observable
    (`new Proxy` allocates the fresh id `nextId`). -/
def createReactiveObject (info : Nat → ObjInfo) (useReadonly : Bool)
    (st : RegState) (target : Nat) : RegState × Nat :=
  let toProxy := if useReadonly then st.rawToReadonly else st.rawToReactive
  let toRawM := if useReadonly then st.readonlyToRaw else st.reactiveToRaw
  if ¬ (info target).isObj then (st, target)
  else
    match lookupL toProxy target with
    | some observed => (st, observed)
    | none =>
      if (lookupL toRawM target).isSome then (st, target)
      else if ¬ canObserve info st target then (st, target)
      else
        let observed := st.nextId
        if useReadonly then
          ({ st with rawToReadonly := insertL st.rawToReadonly target observed,
                     readonlyToRaw := insertL st.readonlyToRaw observed target,
                     nextId := st.nextId + 1 }, observed)
        else
          ({ st with rawToReactive := insertL st.rawToReactive target observed,
                     reactiveToRaw := insertL st.reactiveToRaw observed target,
                     nextId := st.nextId + 1 }, observed)

/-- `readonly(target)`: unwrap a mutable observable to its raw first,
    then create or return the cached read-only view. -/
def readonlyFn (info : Nat → ObjInfo) (st : RegState) (target : Nat) : RegState × Nat :=
  let target := (lookupL st.reactiveToRaw target).getD target
  createReactiveObject info true st target

/-- `reactive(target)`: a read-only proxy is returned unchanged; a value
    marked read-only is wrapped read-only; otherwise create or return
    the cached mutable view. -/
def reactiveFn (info : Nat → ObjInfo) (st : RegState) (target : Nat) : RegState × Nat :=
  if (lookupL st.readonlyToRaw target).isSome then (st, target)
  else if st.readonlyValues.contains target then readonlyFn info st target
  else createReactiveObject info false st target

/-- `toRaw(observed) = reactiveToRaw.get(observed) ||
    readonlyToRaw.get(observed) || observed`. -/
def toRawId (st : RegState) (x : Nat) : Nat :=
  ((lookupL st.reactiveToRaw x).orElse (fun _ => lookupL st.readonlyToRaw x)).getD x

/-!  ## JS values, strict equality, base interceptor setter
     (src/vue3Code/packages/reactivity/src/baseHandlers.ts and
     @vue/shared `hasChanged`)

     Values stored in plain-object properties and ref cells: primitives
    (including `NaN` and `undefined`), ref-cell objects (identified by a
    cell id, carrying the `_isRef` marker probed by `isRef`) and
    pointers to heap objects (raw objects or proxies, identified by
    their registry id).  -/

inductive Val where
  | prim : Int → Val
  | nanV : Val
  | undef : Val
  | vref : Nat → Val
  | objref : Nat → Val
deriving DecidableEq, Repr

/-- JS strict equality `===` on the modelled values (`NaN !== NaN`;
    objects compare by identity). -/
def jsEq : Val → Val → Bool
  | .prim a, .prim b => a == b
  | .nanV, _ => false
  | _, .nanV => false
  | .undef, .undef => true
  | .vref a, .vref b => a == b
  | .objref a, .objref b => a == b
  | _, _ => false

/-- `hasChanged(value, oldValue)` from @vue/shared:
    `value !== oldValue && (value === value || oldValue === oldValue)` —
    strict inequality with NaN counted equal to NaN. -/
def hasChanged (value oldValue : Val) : Bool :=
  !jsEq value oldValue && (jsEq value value || jsEq oldValue oldValue)

/-- `isRef(r)` from src/unnamed/part_001: a plain `_isRef` property
    probe; only ref-cell objects carry it. -/
def isRefVal : Val → Bool
  | .vref _ => true
  | _ => false

/-- `toRaw` lifted to values: object pointers are unwrapped through the
    registry; everything else (primitives, ref cells — never registered
    as proxies) is returned unchanged. -/
def toRawVal (reg : RegState) : Val → Val
  | .objref o => .objref (toRawId reg o)
  | v => v

/-- `convert(val) = isObject(val) ? reactive(val) : val` from
    src/unnamed/part_001, threading the registry.  Ref cells are modelled
    as opaque non-plain objects and pass through unchanged. -/
def convertVal (info : Nat → ObjInfo) (reg : RegState) (v : Val) : RegState × Val :=
  match v with
  | .objref o =>
    let p := reactiveFn info reg o
    (p.1, .objref p.2)
  | v => (reg, v)

/-- A raw plain object: own enumerable string-keyed properties. -/
abbrev Obj := List (String × Val)

/-- Everything observable about one invocation of the proxy `set` trap:
    the updated registry (`convert` may wrap), the raw target after, the
    ref-cell heap after, whether `console.warn` fired, the trap's return
    value, the `trigger` calls made on the target, and the ref cell
    triggered through `oldValue.value = value` (if any). -/
structure SetOutcome where
  reg : RegState
  target : Obj
  refHeap : List (Nat × Val)
  warned : Bool
  result : Bool
  triggers : List (TriggerOpTypes × String)
  refTriggered : Option Nat
deriving DecidableEq, Repr

/-- The `set` trap produced by `createSetter(isReadonly, shallow)` in
    baseHandlers.ts, under the process-wide `LOCKED` flag.  `targetId`
    is the raw target's id, `target` its property record, `receiverId`
    the proxy the write arrived on; `Reflect.set` on a plain data
    property stores the value and returns true. -/
def createSetterFn (info : Nat → ObjInfo) (isReadonly shallow : Bool) (LOCKED : Bool)
    (reg : RegState) (refHeap : List (Nat × Val))
    (targetId : Nat) (target : Obj) (key : String) (value0 : Val)
    (receiverId : Nat) : SetOutcome :=
  if isReadonly && LOCKED then
    { reg := reg, target := target, refHeap := refHeap, warned := true,
      result := true, triggers := [], refTriggered := none }
  else
    let oldValue := (lookupL target key).getD .undef
    let value := if shallow then value0 else toRawVal reg value0
    let refBranch : Option Nat :=
      if shallow then none
      else
        match oldValue, isRefVal value with
        | .vref c, false => some c
        | _, _ => none
    match refBranch with
    | some c =>
      let p := convertVal info reg value
      { reg := p.1, target := target, refHeap := insertL refHeap c p.2,
        warned := false, result := true, triggers := [], refTriggered := some c }
    | none =>
      let hadKey := (lookupL target key).isSome
      { reg := reg, target := insertL target key value, refHeap := refHeap,
        warned := false, result := true,
        triggers :=
          if targetId = toRawId reg receiverId then
            if !hadKey then [(.ADD, key)]
            else if hasChanged value oldValue then [(.SET, key)]
            else []
          else [],
        refTriggered := none }

/-- Everything observable about one invocation of a `deleteProperty`
    trap. -/
structure DeleteOutcome where
  target : Obj
  warned : Bool
  result : Bool
  triggers : List (TriggerOpTypes × String)
deriving DecidableEq, Repr

/-- `deleteProperty` from baseHandlers.ts (the mutable behaviour):
    `Reflect.deleteProperty` on a plain data property succeeds; trigger
    DELETE when the key existed. -/
def deletePropertyFn (target : Obj) (key : String) : DeleteOutcome :=
  let hadKey := (lookupL target key).isSome
  { target := removeL target key, warned := false, result := true,
    triggers := if hadKey then [(.DELETE, key)] else [] }

/-- `readonlyHandlers.deleteProperty` from baseHandlers.ts: under
    `LOCKED` warn and return true without touching the target;
    otherwise delegate to the mutable `deleteProperty`. -/
def readonlyDeleteProperty (LOCKED : Bool) (target : Obj) (key : String) : DeleteOutcome :=
  if LOCKED then
    { target := target, warned := true, result := true, triggers := [] }
  else deletePropertyFn target key

/-!  ## Reference cells (src/unnamed/part_001)  -/

/-- `ref(raw)`: an existing ref is returned as-is; otherwise the raw is
    converted and a fresh cell object carrying `_isRef` is created, its
    storage placed in the cell heap at the fresh id. -/
def refFn (info : Nat → ObjInfo) (reg : RegState) (refHeap : List (Nat × Val))
    (nextRefId : Nat) (raw0 : Val) : Val × RegState × List (Nat × Val) :=
  if isRefVal raw0 then (raw0, reg, refHeap)
  else
    let p := convertVal info reg raw0
    (.vref nextRefId, p.1, insertL refHeap nextRefId p.2)

/-- The `set value(newVal)` accessor of the cell returned by `ref`:
    `raw = convert(newVal); trigger(r, SET, 'value')` — the previous
    stored value (`oldRaw`) is never consulted.  `depsMapOpt` is the
    cell's entry in the target map; the returned list is the sequence of
    effects `trigger` hands to `scheduleRun`. -/
def refSetValue (info : Nat → ObjInfo) (reg : RegState) (iso : Nat → Bool)
    (depsMapOpt : Option KeyToDepMap) (oldRaw newVal : Val) :
    Val × RegState × List Nat :=
  let p := convertVal info reg newVal
  (p.2, p.1, trigger iso false depsMapOpt .SET (some (.prop "value")))

/-!  ## Auxiliary definitions used by the statements  -/

/-- Index of the first occurrence of `a` (length of the list when
    absent); "runs before" in a trigger schedule means smaller index. -/
def idxOf (a : Nat) : List Nat → Nat
  | [] => 0
  | b :: l => if b = a then 0 else idxOf a l + 1

/-- The partition invariant of `addRunners` accumulators: the first
    component holds only plain effects, the second only computed
    ones. -/
def flagInv (iso : Nat → Bool) (ac : List Nat × List Nat) : Prop :=
  (∀ x ∈ ac.1, iso x = false) ∧ (∀ x ∈ ac.2, iso x = true)

/-- Decidable check of the dep-set back-pointer ("membership is
    symmetric") invariant for one effect: every dep-set of the target
    map that contains the effect is listed in the effect's owned dep
    list. -/
def backPtrCheck (st : RState) (e : Nat) : Bool :=
  st.targetMap.all (fun td =>
    td.2.all (fun kd => decide (e ∈ kd.2 → (td.1, kd.1) ∈ depsOf st e)))

/-- Decidable check that every dep-set stored in the target map is
    duplicate-free (JS Sets cannot hold duplicates). -/
def depNodupCheck (st : RState) : Bool :=
  st.targetMap.all (fun td => td.2.all (fun kd => decide kd.2.Nodup))

/-- Concrete empty registry with fresh-id counter 1 (raw object 0 in
    use). -/
def emptyReg : RegState :=
  { rawToReactive := [], reactiveToRaw := [], rawToReadonly := [],
    readonlyToRaw := [], readonlyValues := [], nonReactiveValues := [], nextId := 1 }

/-- Concrete environment in which every id is a plain object. -/
def infoPlain : Nat → ObjInfo :=
  fun _ => { isObj := true, isVue := false, isVNode := false, rawType := .object }

/-- Concrete runtime state: effect 0 is active and currently on the
    effect stack (it is the active effect), tracking is on, nothing is
    tracked yet. -/
def c1State : RState :=
  { effects := [(0, { active := true, hasOnStop := false, deps := [] })],
    effectStack := [0], activeEffect := some 0, shouldTrack := true, targetMap := [] }

/-- A concrete effect body: read property "x" of target 5 (one tracked
    read). -/
def c1Body (st : RState) : RState := track st 5 (.prop "x")

/-- Concrete runtime state: effect 0 is active, off the stack, and
    currently owns the single dep (1, "a") whose dep-set holds it
    back. -/
def c5State : RState :=
  { effects := [(0, { active := true, hasOnStop := false, deps := [(1, .prop "a")] })],
    effectStack := [], activeEffect := none, shouldTrack := true,
    targetMap := [(1, [(.prop "a", [0])])] }

/-!  # Theorems  -/

theorem lookupL_insertL_self {α β : Type} [DecidableEq α] (l : List (α × β)) (k : α) (v : β) :
    lookupL (insertL l k v) k = some v := by
  induction l with
  | nil => simp [insertL, lookupL]
  | cons hd tl ih =>
    obtain ⟨a, b⟩ := hd
    by_cases h : a = k
    · simp [insertL, h, lookupL]
    · simp [insertL, h, lookupL, ih]

theorem lookupL_insertL_ne {α β : Type} [DecidableEq α] (l : List (α × β)) (k k' : α) (v : β)
    (h : k' ≠ k) : lookupL (insertL l k v) k' = lookupL l k' := by
  induction l with
  | nil => simp [insertL, lookupL, Ne.symm h]
  | cons hd tl ih =>
    obtain ⟨a, b⟩ := hd
    by_cases ha : a = k
    · subst ha
      simp [insertL, lookupL, Ne.symm h]
    · simp [insertL, ha, lookupL, ih]

theorem lookupL_mem {α β : Type} [DecidableEq α] {l : List (α × β)} {k : α} {v : β}
    (h : lookupL l k = some v) : (k, v) ∈ l := by
  induction l with
  | nil => simp [lookupL] at h
  | cons hd tl ih =>
    obtain ⟨a, b⟩ := hd
    by_cases ha : a = k
    · subst ha
      simp [lookupL] at h
      simp [h]
    · simp [lookupL, ha] at h
      exact List.mem_cons_of_mem _ (ih h)

theorem lookupL_modifyL_self {α β : Type} [DecidableEq α] (l : List (α × β)) (k : α) (f : β → β) :
    lookupL (modifyL l k f) k = (lookupL l k).map f := by
  induction l with
  | nil => simp [modifyL, lookupL]
  | cons hd tl ih =>
    obtain ⟨a, b⟩ := hd
    by_cases ha : a = k
    · simp [modifyL, ha, lookupL]
    · simp [modifyL, ha, lookupL, ih]

theorem lookupL_modifyL_ne {α β : Type} [DecidableEq α] (l : List (α × β)) (k k' : α) (f : β → β)
    (h : k' ≠ k) : lookupL (modifyL l k f) k' = lookupL l k' := by
  induction l with
  | nil => simp [modifyL, lookupL]
  | cons hd tl ih =>
    obtain ⟨a, b⟩ := hd
    by_cases ha : a = k
    · subst ha
      simp [modifyL, lookupL, Ne.symm h]
    · simp [modifyL, ha, lookupL, ih]

theorem processJobs_overflow_aux {j : Nat} :
    ∀ (jobs : List Nat) (seen : List (Nat × Nat)),
      (lookupL seen j).getD 0 ≤ RECURSION_LIMIT + 1 →
      RECURSION_LIMIT + 1 < (lookupL seen j).getD 0 + jobs.count j →
      isErr (processJobs seen jobs) = true := by
  intro jobs
  induction jobs with
  | nil =>
    intro seen h1 h2
    simp [List.count_nil] at h2
    omega
  | cons x rest ih =>
    intro seen h1 h2
    by_cases hx : x = j
    · subst hx
      rw [List.count_cons_self] at h2
      cases hc : lookupL seen x with
      | none =>
        have hs : lookupL (insertL seen x 1) x = some 1 := lookupL_insertL_self _ _ _
        simp only [processJobs, checkRecursiveUpdates, hc]
        apply ih
        · simp [hs, RECURSION_LIMIT]
        · simp [hs]
          simp [hc] at h2
          omega
      | some c =>
        simp only [processJobs, checkRecursiveUpdates, hc]
        by_cases hlim : RECURSION_LIMIT < c
        · simp [hlim, isErr]
        · simp only [hlim, if_false]
          have hs : lookupL (insertL seen x (c + 1)) x = some (c + 1) :=
            lookupL_insertL_self _ _ _
          apply ih
          · simp [hs]
            omega
          · simp [hs]
            simp [hc] at h2
            omega
    · rw [List.count_cons_of_ne (fun hh => hx hh.symm)] at h2
      simp only [processJobs, checkRecursiveUpdates]
      cases hc : lookupL seen x with
      | none =>
        have hs : lookupL (insertL seen x 1) j = lookupL seen j :=
          lookupL_insertL_ne _ _ _ _ (fun hh => hx hh.symm)
        exact ih _ (by rw [hs]; exact h1) (by rw [hs]; exact h2)
      | some c =>
        by_cases hlim : RECURSION_LIMIT < c
        · simp [hlim, isErr]
        · simp only [hlim, if_false]
          have hs : lookupL (insertL seen x (c + 1)) j = lookupL seen j :=
            lookupL_insertL_ne _ _ _ _ (fun hh => hx hh.symm)
          exact ih _ (by rw [hs]; exact h1) (by rw [hs]; exact h2)

theorem setAdd_mem_self (s : List Nat) (x : Nat) : x ∈ setAdd s x := by
  by_cases h : x ∈ s <;> simp [setAdd, h]

theorem setAdd_mem_mono {s : List Nat} {y : Nat} (x : Nat) (h : y ∈ s) : y ∈ setAdd s x := by
  by_cases hx : x ∈ s <;> simp [setAdd, hx, h]

theorem setAdd_mem_elim {s : List Nat} {x y : Nat} (h : y ∈ setAdd s x) : y ∈ s ∨ y = x := by
  by_cases hx : x ∈ s
  · simp [setAdd, hx] at h
    exact Or.inl h
  · simp [setAdd, hx] at h
    exact h

theorem addRunners_foldl_mem (iso : Nat → Bool) :
    ∀ (l : List Nat) (ac : List Nat × List Nat) (x : Nat),
      (x ∈ ac.1 ∨ x ∈ ac.2 ∨ x ∈ l) →
      (x ∈ (l.foldl (fun ac e =>
          if iso e then (ac.1, setAdd ac.2 e) else (setAdd ac.1 e, ac.2)) ac).1 ∨
       x ∈ (l.foldl (fun ac e =>
          if iso e then (ac.1, setAdd ac.2 e) else (setAdd ac.1 e, ac.2)) ac).2) := by
  intro l
  induction l with
  | nil =>
    intro ac x h
    simp only [List.foldl_nil]
    rcases h with h | h | h
    · exact Or.inl h
    · exact Or.inr h
    · exact absurd h (List.not_mem_nil x)
  | cons e rest ih =>
    intro ac x h
    simp only [List.foldl_cons]
    apply ih
    by_cases he : iso e
    · simp only [he, if_pos]
      rcases h with h | h | h
      · exact Or.inl h
      · exact Or.inr (Or.inl (setAdd_mem_mono e h))
      · rcases List.mem_cons.mp h with h | h
        · exact Or.inr (Or.inl (h ▸ setAdd_mem_self _ _))
        · exact Or.inr (Or.inr h)
    · simp only [he, if_neg, Bool.false_eq_true, not_false_iff, ite_false]
      rcases h with h | h | h
      · exact Or.inl (setAdd_mem_mono e h)
      · exact Or.inr (Or.inl h)
      · rcases List.mem_cons.mp h with h | h
        · exact Or.inl (h ▸ setAdd_mem_self _ _)
        · exact Or.inr (Or.inr h)

theorem addRunners_foldl_flags (iso : Nat → Bool) :
    ∀ (l : List Nat) (ac : List Nat × List Nat),
      flagInv iso ac →
      flagInv iso (l.foldl (fun ac e =>
        if iso e then (ac.1, setAdd ac.2 e) else (setAdd ac.1 e, ac.2)) ac) := by
  intro l
  induction l with
  | nil => intro ac h; simpa using h
  | cons e rest ih =>
    intro ac h
    simp only [List.foldl_cons]
    apply ih
    by_cases he : iso e
    · simp only [he, if_pos]
      refine ⟨h.1, ?_⟩
      intro x hx
      rcases setAdd_mem_elim hx with hx | hx
      · exact h.2 x hx
      · exact hx ▸ he
    · simp only [he, if_neg, Bool.false_eq_true, not_false_iff, ite_false]
      refine ⟨?_, h.2⟩
      intro x hx
      rcases setAdd_mem_elim hx with hx | hx
      · exact h.1 x hx
      · subst hx
        exact Bool.not_eq_true _ ▸ (by simpa using he)

theorem addRunners_mem (iso : Nat → Bool) (ac : List Nat × List Nat) (o : Option Dep) (x : Nat)
    (h : x ∈ ac.1 ∨ x ∈ ac.2 ∨ x ∈ o.getD []) :
    x ∈ (addRunners iso ac o).1 ∨ x ∈ (addRunners iso ac o).2 := by
  cases o with
  | none =>
    simp only [Option.getD_none, List.not_mem_nil, or_false] at h
    simpa [addRunners] using h
  | some l =>
    simp only [Option.getD_some] at h
    exact addRunners_foldl_mem iso l ac x h

theorem addRunners_flags (iso : Nat → Bool) (ac : List Nat × List Nat) (o : Option Dep)
    (h : flagInv iso ac) : flagInv iso (addRunners iso ac o) := by
  cases o with
  | none => simpa [addRunners] using h
  | some l => exact addRunners_foldl_flags iso l ac h

/-- For a non-CLEAR trigger with a present key, the schedule is
    `computedRunners ++ effects` for an accumulator that satisfies the
    partition invariant and contains every effect of the dep-set for the
    key. -/
theorem trigger_acc_spec (iso : Nat → Bool) (isArr : Bool) (dm : KeyToDepMap)
    (ty : TriggerOpTypes) (k : RKey) (hty : ty ≠ .CLEAR) :
    ∃ acc : List Nat × List Nat,
      trigger iso isArr (some dm) ty (some k) = acc.2 ++ acc.1 ∧
      flagInv iso acc ∧
      (∀ x, x ∈ (lookupL dm k).getD [] → x ∈ acc.1 ∨ x ∈ acc.2) := by
  simp only [trigger, hty, if_neg, ite_false]
  by_cases had : ty = .ADD ∨ ty = .DELETE
  · refine ⟨addRunners iso (addRunners iso ([], []) (lookupL dm k))
      (lookupL dm (iterationKey isArr)), by simp [had], ?_, ?_⟩
    · exact addRunners_flags _ _ _ (addRunners_flags _ _ _ ⟨by simp, by simp⟩)
    · intro x hx
      apply addRunners_mem
      have := addRunners_mem iso ([], []) (lookupL dm k) x (by simp [hx])
      tauto
  · refine ⟨addRunners iso ([], []) (lookupL dm k), by simp [had], ?_, ?_⟩
    · exact addRunners_flags _ _ _ ⟨by simp, by simp⟩
    · intro x hx
      apply addRunners_mem
      simp [hx]

/-- For an ADD or DELETE trigger, the schedule additionally contains
    every effect of the dep-set for the iteration key. -/
theorem trigger_acc_spec_iter (iso : Nat → Bool) (isArr : Bool) (dm : KeyToDepMap)
    (ty : TriggerOpTypes) (key : Option RKey) (hty : ty = .ADD ∨ ty = .DELETE) :
    ∃ acc : List Nat × List Nat,
      trigger iso isArr (some dm) ty key = acc.2 ++ acc.1 ∧
      flagInv iso acc ∧
      (∀ x, x ∈ (lookupL dm (iterationKey isArr)).getD [] → x ∈ acc.1 ∨ x ∈ acc.2) := by
  have hne : ty ≠ .CLEAR := by rcases hty with h | h <;> subst h <;> decide
  simp only [trigger, hne, if_neg, ite_false]
  refine ⟨addRunners iso (match key with
      | some k => addRunners iso ([], []) (lookupL dm k)
      | none => ([], [])) (lookupL dm (iterationKey isArr)), by simp [hty], ?_, ?_⟩
  · apply addRunners_flags
    cases key with
    | none => exact ⟨by simp, by simp⟩
    | some k => exact addRunners_flags _ _ _ ⟨by simp, by simp⟩
  · intro x hx
    apply addRunners_mem
    simp [hx]

theorem idxOf_append_left {a : Nat} : ∀ (l1 l2 : List Nat), a ∈ l1 → idxOf a (l1 ++ l2) < l1.length := by
  intro l1
  induction l1 with
  | nil => intro l2 h; cases h
  | cons b t ih =>
    intro l2 h
    by_cases hb : b = a
    · simp [idxOf, hb]
    · rcases List.mem_cons.mp h with h | h
      · exact absurd h.symm hb
      · simp only [List.cons_append, idxOf, hb, if_neg, ite_false, List.length_cons]
        exact Nat.succ_lt_succ (ih l2 h)

theorem idxOf_append_right {a : Nat} : ∀ (l1 l2 : List Nat), a ∉ l1 →
    idxOf a (l1 ++ l2) = l1.length + idxOf a l2 := by
  intro l1
  induction l1 with
  | nil => intro l2 _; simp
  | cons b t ih =>
    intro l2 h
    have hb : b ≠ a := fun hh => h (hh ▸ List.mem_cons_self b t)
    have ht : a ∉ t := fun hh => h (List.mem_cons_of_mem b hh)
    show (if b = a then 0 else idxOf a (t ++ l2) + 1) = (b :: t).length + idxOf a l2
    rw [if_neg hb, ih l2 ht, List.length_cons]
    omega

/-!  ## Claim C8 — scheduler recursion limit  -/

set_option maxRecDepth 4000 in
/-- C8 counterexample: the claim says a job enqueued (run) more than 100
    times during one flush pass causes the fatal error; but a job
    dequeued 101 times — more than 100 — completes the pass without any
    error being thrown. -/
theorem c8_counterexample :
    RECURSION_LIMIT < 101 ∧ isErr (processJobs [] (List.replicate 101 0)) = false := by
  constructor
  · decide
  · decide

/-- C8 (amended): a job function dequeued more than 101 times during one
    flush pass (so that its seen-count exceeds `RECURSION_LIMIT` = 100
    at its 102nd check) makes `checkRecursiveUpdates` throw the fatal
    "Maximum recursive updates exceeded" error, aborting the pass. -/
theorem c8_recursion_limit (jobs : List Nat) (j : Nat)
    (h : RECURSION_LIMIT + 1 < jobs.count j) :
    isErr (processJobs [] jobs) = true := by
  apply processJobs_overflow_aux jobs []
  · simp [lookupL]
  · simpa [lookupL] using h

set_option maxRecDepth 4000 in
/-- C8 witness: 102 dequeues of job 0 abort the pass. -/
theorem c8_witness :
    RECURSION_LIMIT + 1 < (List.replicate 102 0).count 0 ∧
    isErr (processJobs [] (List.replicate 102 0)) = true :=
  ⟨by decide, c8_recursion_limit (List.replicate 102 0) 0 (by decide)⟩

/-!  ## Claim C9 — ref is idempotent on existing cells  -/

/-- C9: `ref(x)` returns `x` itself, with no allocation and no registry
    or cell-heap change, whenever `isRef(x)` holds. -/
theorem c9_ref_idempotent (info : Nat → ObjInfo) (reg : RegState)
    (refHeap : List (Nat × Val)) (nextRefId : Nat) (x : Val)
    (h : isRefVal x = true) :
    refFn info reg refHeap nextRefId x = (x, reg, refHeap) := by
  simp [refFn, h]

/-- C9 witness: an existing cell object passes through `ref`
    unchanged. -/
theorem c9_witness :
    isRefVal (.vref 0) = true ∧
    refFn infoPlain emptyReg [] 7 (.vref 0) = (.vref 0, emptyReg, []) :=
  ⟨by decide, c9_ref_idempotent infoPlain emptyReg [] 7 (.vref 0) (by decide)⟩

/-!  ## Claim C10 — stop is idempotent  -/

theorem activeOf_stop_fst (st : RState) (e : Nat) : activeOf (stop st e).1 e = false := by
  by_cases h : activeOf st e = true
  · cases hr : lookupL st.effects e with
    | none => simp [activeOf, hr] at h
    | some r =>
      simp only [stop, h, if_pos]
      simp [activeOf, cleanup, lookupL_modifyL_self, hr]
  · have h' : activeOf st e = false := by simpa using h
    simp [stop, h']

/-- C10: stopping an already-inactive effect changes no state and does
    not invoke `onStop`; consequently a second `stop` after any first
    `stop` is a no-op with no `onStop` call, so `onStop` fires at most
    once. -/
theorem c10_stop_idempotent (st : RState) (e : Nat) :
    (activeOf st e = false → stop st e = (st, false)) ∧
    stop (stop st e).1 e = ((stop st e).1, false) := by
  constructor
  · intro h
    simp [stop, h]
  · have h := activeOf_stop_fst st e
    generalize (stop st e).1 = st' at h ⊢
    simp [stop, h]

/-- C10 witness: concrete inactive effect — `stop` returns the state
    unchanged and reports `onStop` not invoked (even though the effect
    has an `onStop` callback registered). -/
theorem c10_witness :
    activeOf { effects := [(0, { active := false, hasOnStop := true, deps := [] })],
               effectStack := [], activeEffect := none, shouldTrack := true,
               targetMap := [] } 0 = false ∧
    stop { effects := [(0, { active := false, hasOnStop := true, deps := [] })],
           effectStack := [], activeEffect := none, shouldTrack := true,
           targetMap := [] } 0 =
      ({ effects := [(0, { active := false, hasOnStop := true, deps := [] })],
         effectStack := [], activeEffect := none, shouldTrack := true,
         targetMap := [] }, false) :=
  ⟨by decide, (c10_stop_idempotent _ 0).1 (by decide)⟩

/-!  ## Claim C1 — re-entering a stacked effect  -/

/-- C1 counterexample: for an active effect already on the effect stack,
    the claim says the body runs (without push/cleanup); but `run`
    returns the state entirely unchanged, while actually running the
    body would have changed it (the body performs a tracked read). -/
theorem c1_counterexample :
    run 0 c1Body c1State = c1State ∧ c1Body c1State ≠ c1State := by
  constructor
  · decide
  · decide

/-- C1 (amended): invoking an active effect that is already on the
    effect stack is a complete no-op — `run` returns without executing
    the body and without pushing or cleaning anything, so the state is
    unchanged (which is what prevents infinite recursion when an effect
    writes to something it also reads). -/
theorem c1_reenter_noop (st : RState) (e : Nat) (fn : RState → RState)
    (h1 : activeOf st e = true) (h2 : e ∈ st.effectStack) :
    run e fn st = st := by
  simp [run, h1, h2]

/-- C1 witness: the concrete stacked effect with the concrete body. -/
theorem c1_witness :
    activeOf c1State 0 = true ∧ 0 ∈ c1State.effectStack ∧
    run 0 c1Body c1State = c1State :=
  ⟨by decide, by decide, c1_reenter_noop c1State 0 c1Body (by decide) (by decide)⟩

/-!  ## Claim C2 — ref setter and unchanged values  -/

/-- C2 counterexample: a ref holding 0 with effect 1 tracking its
    `value`; assigning 0 again — unchanged under strict equality — still
    schedules effect 1 (the ref setter has no changed-value guard). -/
theorem c2_counterexample :
    jsEq (.prim 0) (.prim 0) = true ∧
    (refSetValue infoPlain emptyReg (fun _ => false)
        (some [(.prop "value", [1])]) (.prim 0) (.prim 0)).2.2 = [1] := by
  constructor
  · decide
  · decide

/-- C2 (amended): assigning to `r.value` triggers unconditionally — the
    setter never consults the previous value, so every effect tracking
    the cell's `value` is scheduled on every assignment, whether or not
    the new value equals the old under strict equality (the NaN-aware
    changed-value check lives in the base object setter, not in the ref
    setter). -/
theorem c2_set_always_triggers (info : Nat → ObjInfo) (reg : RegState) (iso : Nat → Bool)
    (dm : KeyToDepMap) (oldRaw newVal : Val) (e : Nat)
    (he : e ∈ (lookupL dm (.prop "value")).getD []) :
    e ∈ (refSetValue info reg iso (some dm) oldRaw newVal).2.2 := by
  show e ∈ trigger iso false (some dm) .SET (some (.prop "value"))
  obtain ⟨acc, heq, _, hmem⟩ :=
    trigger_acc_spec iso false dm .SET (.prop "value") (by decide)
  rw [heq]
  rcases hmem e he with h | h
  · exact List.mem_append_right _ h
  · exact List.mem_append_left _ h

/-- C2 witness: with a changed value the tracked effect is scheduled
    (instantiating the amended theorem). -/
theorem c2_witness :
    (1 : Nat) ∈ (lookupL [(RKey.prop "value", [1])] (.prop "value")).getD [] ∧
    1 ∈ (refSetValue infoPlain emptyReg (fun _ => false)
        (some [(.prop "value", [1])]) (.prim 0) (.prim 1)).2.2 :=
  ⟨by decide,
   c2_set_always_triggers infoPlain emptyReg (fun _ => false)
     [(.prop "value", [1])] (.prim 0) (.prim 1) 1 (by decide)⟩

/-!  ## Claim C3 — read-only views: locked and unlocked modes  -/

/-- C3 counterexample: unlocked mode, read-only view over raw object 5
    holding a=1; writing a:=2 through the view actually mutates the raw
    object — not a no-op as the claim states. -/
theorem c3_counterexample :
    (createSetterFn infoPlain true false false emptyReg [] 5 [("a", .prim 1)]
        "a" (.prim 2) 5).target = [("a", .prim 2)] ∧
    (createSetterFn infoPlain true false false emptyReg [] 5 [("a", .prim 1)]
        "a" (.prim 2) 5).target ≠ [("a", .prim 1)] := by
  constructor
  · decide
  · decide

/-- C3 (amended): through a read-only view, in library-locked mode a
    property write or delete warns and fails leaving the raw target (and
    everything else) unchanged and triggering nothing; in user-unlocked
    mode the write or delete delegates to the normal mutable behaviour —
    it is NOT a no-op: it mutates the raw target exactly as a write or
    delete through the mutable view would. -/
theorem c3_locked_warns_unlocked_delegates (info : Nat → ObjInfo) (reg : RegState)
    (refHeap : List (Nat × Val)) (targetId : Nat) (target : Obj) (key : String)
    (value : Val) (receiverId : Nat) (shallow : Bool) :
    (createSetterFn info true shallow true reg refHeap targetId target key value receiverId =
      { reg := reg, target := target, refHeap := refHeap, warned := true,
        result := true, triggers := [], refTriggered := none }) ∧
    (readonlyDeleteProperty true target key =
      { target := target, warned := true, result := true, triggers := [] }) ∧
    (createSetterFn info true shallow false reg refHeap targetId target key value receiverId =
      createSetterFn info false shallow false reg refHeap targetId target key value receiverId) ∧
    (readonlyDeleteProperty false target key = deletePropertyFn target key) := by
  refine ⟨?_, ?_, ?_, ?_⟩
  · simp [createSetterFn]
  · simp [readonlyDeleteProperty]
  · simp [createSetterFn]
  · simp [readonlyDeleteProperty]

/-!  ## Claim C4 — computed effects run before plain effects  -/

/-- C4: within one non-CLEAR `trigger`, if a computed effect and a plain
    effect both belong to the dep-set of the triggered key, the computed
    one appears strictly earlier in the schedule handed to
    `scheduleRun`. -/
theorem c4_computed_first (iso : Nat → Bool) (isArr : Bool) (dm : KeyToDepMap)
    (ty : TriggerOpTypes) (k : RKey) (e1 e2 : Nat)
    (hty : ty ≠ .CLEAR)
    (h1 : e1 ∈ (lookupL dm k).getD []) (h2 : e2 ∈ (lookupL dm k).getD [])
    (hc1 : iso e1 = true) (hc2 : iso e2 = false) :
    idxOf e1 (trigger iso isArr (some dm) ty (some k)) <
    idxOf e2 (trigger iso isArr (some dm) ty (some k)) := by
  obtain ⟨acc, heq, ⟨hf1, hf2⟩, hmem⟩ := trigger_acc_spec iso isArr dm ty k hty
  rw [heq]
  have he1 : e1 ∈ acc.2 := by
    rcases hmem e1 h1 with h | h
    · exact absurd (hf1 e1 h) (by simp [hc1])
    · exact h
  have he2 : e2 ∈ acc.1 := by
    rcases hmem e2 h2 with h | h
    · exact h
    · exact absurd (hf2 e2 h) (by simp [hc2])
  have he2' : e2 ∉ acc.2 := fun hmem2 => absurd (hf2 e2 hmem2) (by simp [hc2])
  have hlt := idxOf_append_left acc.2 acc.1 he1
  have heq2 := idxOf_append_right acc.2 acc.1 he2'
  have hpos : 0 < idxOf e2 acc.1 + 1 := Nat.succ_pos _
  omega

/-- C4 witness: dep-set [1, 2] for key "a" where 2 is computed and 1 is
    plain — 2 is scheduled before 1. -/
theorem c4_witness :
    ((.SET : TriggerOpTypes) ≠ .CLEAR) ∧
    (2 : Nat) ∈ (lookupL [(RKey.prop "a", [1, 2])] (.prop "a")).getD [] ∧
    (1 : Nat) ∈ (lookupL [(RKey.prop "a", [1, 2])] (.prop "a")).getD [] ∧
    idxOf 2 (trigger (fun n => n == 2) false (some [(.prop "a", [1, 2])]) .SET (some (.prop "a"))) <
    idxOf 1 (trigger (fun n => n == 2) false (some [(.prop "a", [1, 2])]) .SET (some (.prop "a"))) :=
  ⟨by decide, by decide, by decide,
   c4_computed_first (fun n => n == 2) false [(.prop "a", [1, 2])] .SET (.prop "a") 2 1
     (by decide) (by decide) (by decide) (by decide) (by decide)⟩

/-!  ## Claim C6 — ADD/DELETE also trigger the iteration key  -/

/-- C6: a trigger of type ADD or DELETE schedules every effect in the
    dep-set of the iteration key — the `length` property for array
    targets, the `ITERATE_KEY` sentinel otherwise — in addition to the
    dep-set of the mutated key. -/
theorem c6_iteration_trigger (iso : Nat → Bool) (isArr : Bool) (dm : KeyToDepMap)
    (ty : TriggerOpTypes) (key : Option RKey) (e : Nat)
    (hty : ty = .ADD ∨ ty = .DELETE)
    (he : e ∈ (lookupL dm (iterationKey isArr)).getD []) :
    e ∈ trigger iso isArr (some dm) ty key := by
  obtain ⟨acc, heq, _, hmem⟩ := trigger_acc_spec_iter iso isArr dm ty key hty
  rw [heq]
  rcases hmem e he with h | h
  · exact List.mem_append_right _ h
  · exact List.mem_append_left _ h

/-- C6 witness: an ADD on key "b" of a non-array target schedules the
    effect subscribed to `ITERATE_KEY`; the same op on an array target
    schedules the effect subscribed to `length`. -/
theorem c6_witness :
    ((.ADD : TriggerOpTypes) = .ADD ∨ (.ADD : TriggerOpTypes) = .DELETE) ∧
    (3 : Nat) ∈ (lookupL [(RKey.iterateKey, [3])] (iterationKey false)).getD [] ∧
    3 ∈ trigger (fun _ => false) false (some [(.iterateKey, [3])]) .ADD (some (.prop "b")) :=
  ⟨by decide, by decide,
   c6_iteration_trigger (fun _ => false) false [(.iterateKey, [3])] .ADD
     (some (.prop "b")) 3 (by decide) (by decide)⟩

/-!  ## Claim C7 — identity registry  -/

/-- C7: for a raw object `r` of observable kind (a fresh raw: not a
    proxy, not yet wrapped, not advisory-marked), with a genuinely fresh
    proxy id:
    1. `toRaw(reactive(r))` is exactly `r`;
    2. `reactive(reactive(r))` returns the very same view;
    3. `reactive(r)` called again returns the same memoized view. -/
theorem c7_identity (info : Nat → ObjInfo) (st : RegState) (r : Nat)
    (hobj : (info r).isObj = true)
    (hcan : canObserve info st r = true)
    (hro : lookupL st.readonlyToRaw r = none)
    (hrv : st.readonlyValues.contains r = false)
    (hp : lookupL st.rawToReactive r = none)
    (hpr : lookupL st.reactiveToRaw r = none)
    (hfobj : (info st.nextId).isObj = true)
    (hf1 : lookupL st.rawToReactive st.nextId = none)
    (hf3 : lookupL st.readonlyToRaw st.nextId = none)
    (hf4 : st.readonlyValues.contains st.nextId = false)
    (hne : st.nextId ≠ r) :
    toRawId (reactiveFn info st r).1 (reactiveFn info st r).2 = r ∧
    (reactiveFn info (reactiveFn info st r).1 (reactiveFn info st r).2).2 =
      (reactiveFn info st r).2 ∧
    (reactiveFn info (reactiveFn info st r).1 r).2 = (reactiveFn info st r).2 := by
  have hrv' : r ∉ st.readonlyValues := by simpa using hrv
  have hf4' : st.nextId ∉ st.readonlyValues := by simpa using hf4
  have hmain : reactiveFn info st r =
      ({ st with rawToReactive := insertL st.rawToReactive r st.nextId,
                 reactiveToRaw := insertL st.reactiveToRaw st.nextId r,
                 nextId := st.nextId + 1 }, st.nextId) := by
    simp [reactiveFn, hro, hrv', createReactiveObject, hobj, hp, hpr, hcan]
  rw [hmain]
  refine ⟨?_, ?_, ?_⟩
  · simp [toRawId, lookupL_insertL_self]
  · have h1 : lookupL (insertL st.rawToReactive r st.nextId) st.nextId = none := by
      rw [lookupL_insertL_ne _ _ _ _ hne]; exact hf1
    simp [reactiveFn, hf3, hf4', createReactiveObject, hfobj, h1, lookupL_insertL_self]
  · simp [reactiveFn, hro, hrv', createReactiveObject, hobj, lookupL_insertL_self]

/-- C7 witness: the empty registry, raw object 0, fresh proxy id 1. -/
theorem c7_witness :
    canObserve infoPlain emptyReg 0 = true ∧
    toRawId (reactiveFn infoPlain emptyReg 0).1 (reactiveFn infoPlain emptyReg 0).2 = 0 ∧
    (reactiveFn infoPlain (reactiveFn infoPlain emptyReg 0).1
        (reactiveFn infoPlain emptyReg 0).2).2 = (reactiveFn infoPlain emptyReg 0).2 ∧
    (reactiveFn infoPlain (reactiveFn infoPlain emptyReg 0).1 0).2 =
      (reactiveFn infoPlain emptyReg 0).2 :=
  ⟨by decide,
   (c7_identity infoPlain emptyReg 0 (by decide) (by decide) (by decide) (by decide)
     (by decide) (by decide) (by decide) (by decide) (by decide) (by decide) (by decide)).1,
   (c7_identity infoPlain emptyReg 0 (by decide) (by decide) (by decide) (by decide)
     (by decide) (by decide) (by decide) (by decide) (by decide) (by decide) (by decide)).2.1,
   (c7_identity infoPlain emptyReg 0 (by decide) (by decide) (by decide) (by decide)
     (by decide) (by decide) (by decide) (by decide) (by decide) (by decide) (by decide)).2.2⟩

/-!  ## Claim C5 — cleanup before re-run, deps reflect exactly the reads  -/

theorem lookupL_modifyL_isSome {α β : Type} [DecidableEq α] (l : List (α × β)) (k' k : α)
    (f : β → β) : (lookupL (modifyL l k f) k').isSome = (lookupL l k').isSome := by
  by_cases h : k' = k
  · subst h
    rw [lookupL_modifyL_self]
    cases lookupL l k' <;> rfl
  · rw [lookupL_modifyL_ne _ _ _ _ h]

theorem track_shouldTrack (st : RState) (t : Nat) (k : RKey) :
    (track st t k).shouldTrack = st.shouldTrack := by
  by_cases h1 : st.shouldTrack = false
  · simp [track, h1]
  · cases ha : st.activeEffect with
    | none => simp [track, h1, ha]
    | some ae =>
      by_cases hm : ae ∈ (lookupL ((lookupL st.targetMap t).getD []) k).getD []
      · simp [track, h1, ha, hm]
      · simp [track, h1, ha, hm]

theorem track_activeEffect (st : RState) (t : Nat) (k : RKey) :
    (track st t k).activeEffect = st.activeEffect := by
  by_cases h1 : st.shouldTrack = false
  · simp [track, h1]
  · cases ha : st.activeEffect with
    | none => simp [track, h1, ha]
    | some ae =>
      by_cases hm : ae ∈ (lookupL ((lookupL st.targetMap t).getD []) k).getD []
      · simp [track, h1, ha, hm]
      · simp [track, h1, ha, hm]

theorem track_effects_isSome (st : RState) (t : Nat) (k : RKey) (x : Nat) :
    (lookupL (track st t k).effects x).isSome = (lookupL st.effects x).isSome := by
  by_cases h1 : st.shouldTrack = false
  · simp [track, h1]
  · cases ha : st.activeEffect with
    | none => simp [track, h1, ha]
    | some ae =>
      by_cases hm : ae ∈ (lookupL ((lookupL st.targetMap t).getD []) k).getD []
      · simp [track, h1, ha, hm]
      · simp [track, h1, ha, hm, lookupL_modifyL_isSome]

theorem track_mem_noop (st : RState) (t : Nat) (k : RKey) (e : Nat)
    (hs : st.shouldTrack = true) (ha : st.activeEffect = some e)
    (hm : e ∈ depOf st t k) : track st t k = st := by
  simp only [depOf, depIn] at hm
  simp [track, hs, ha, hm]

theorem track_not_mem_eq (st : RState) (t : Nat) (k : RKey) (e : Nat)
    (hs : st.shouldTrack = true) (ha : st.activeEffect = some e)
    (hm : e ∉ depOf st t k) :
    track st t k =
      { st with
        targetMap := insertL st.targetMap t
          (insertL ((lookupL st.targetMap t).getD []) k (depOf st t k ++ [e])),
        effects := modifyL st.effects e
          (fun r => { r with deps := r.deps ++ [(t, k)] }) } := by
  simp only [depOf, depIn] at hm
  simp [track, hs, ha, hm, depOf, depIn]

theorem track_depsOf_not_mem (st : RState) (t : Nat) (k : RKey) (e : Nat)
    (hs : st.shouldTrack = true) (ha : st.activeEffect = some e)
    (hm : e ∉ depOf st t k) (hp : (lookupL st.effects e).isSome = true) :
    depsOf (track st t k) e = depsOf st e ++ [(t, k)] := by
  rw [track_not_mem_eq st t k e hs ha hm]
  cases hl : lookupL st.effects e with
  | none => rw [hl] at hp; simp at hp
  | some r => simp [depsOf, lookupL_modifyL_self, hl]

theorem track_depOf_self (st : RState) (t : Nat) (k : RKey) (e : Nat)
    (hs : st.shouldTrack = true) (ha : st.activeEffect = some e)
    (hm : e ∉ depOf st t k) :
    depOf (track st t k) t k = depOf st t k ++ [e] := by
  rw [track_not_mem_eq st t k e hs ha hm]
  simp [depOf, depIn, lookupL_insertL_self]

theorem track_depOf_other (st : RState) (t : Nat) (k : RKey) (e : Nat) (t' : Nat) (k' : RKey)
    (hs : st.shouldTrack = true) (ha : st.activeEffect = some e)
    (hm : e ∉ depOf st t k) (hne : (t', k') ≠ (t, k)) :
    depOf (track st t k) t' k' = depOf st t' k' := by
  rw [track_not_mem_eq st t k e hs ha hm]
  by_cases ht : t' = t
  · subst ht
    have hk : k' ≠ k := by
      intro h
      exact hne (by rw [h])
    simp [depOf, depIn, lookupL_insertL_self, lookupL_insertL_ne _ _ _ _ hk]
  · simp [depOf, depIn, lookupL_insertL_ne _ _ _ _ ht]

theorem depIn_removeEffectFromDep_self (tm : TargetMap) (t : Nat) (k : RKey) (e : Nat) :
    depIn (removeEffectFromDep tm t k e) t k = (depIn tm t k).erase e := by
  cases h1 : lookupL tm t with
  | none => simp [removeEffectFromDep, depIn, h1, lookupL]
  | some dm =>
    cases h2 : lookupL dm k with
    | none => simp [removeEffectFromDep, depIn, h1, h2]
    | some dep => simp [removeEffectFromDep, depIn, h1, h2, lookupL_insertL_self]

theorem depIn_removeEffectFromDep_other (tm : TargetMap) (t0 : Nat) (k0 : RKey)
    (t : Nat) (k : RKey) (e : Nat) (hne : (t, k) ≠ (t0, k0)) :
    depIn (removeEffectFromDep tm t0 k0 e) t k = depIn tm t k := by
  cases h1 : lookupL tm t0 with
  | none => simp [removeEffectFromDep, h1]
  | some dm =>
    cases h2 : lookupL dm k0 with
    | none => simp [removeEffectFromDep, h1, h2]
    | some dep =>
      by_cases ht : t = t0
      · subst ht
        have hk : k ≠ k0 := by
          intro h
          exact hne (by rw [h])
        simp [removeEffectFromDep, h1, h2, depIn, lookupL_insertL_self,
              lookupL_insertL_ne _ _ _ _ hk]
      · simp [removeEffectFromDep, h1, h2, depIn, lookupL_insertL_ne _ _ _ _ ht]

theorem nodup_removeEffectFromDep (tm : TargetMap) (t0 : Nat) (k0 : RKey) (e : Nat)
    (h : ∀ t k, (depIn tm t k).Nodup) :
    ∀ t k, (depIn (removeEffectFromDep tm t0 k0 e) t k).Nodup := by
  intro t k
  by_cases hc : (t, k) = (t0, k0)
  · obtain ⟨h1, h2⟩ := Prod.mk.injEq .. ▸ hc
    subst h1; subst h2
    rw [depIn_removeEffectFromDep_self]
    exact (h t k).erase e
  · rw [depIn_removeEffectFromDep_other tm t0 k0 t k e hc]
    exact h t k

theorem foldl_remove_not_mem (e : Nat) :
    ∀ (L : List (Nat × RKey)) (tm : TargetMap),
      (∀ t k, e ∈ depIn tm t k → (t, k) ∈ L) →
      (∀ t k, (depIn tm t k).Nodup) →
      ∀ t k, e ∉ depIn (L.foldl (fun acc tk => removeEffectFromDep acc tk.1 tk.2 e) tm) t k := by
  intro L
  induction L with
  | nil =>
    intro tm hmem _ t k hin
    exact absurd (hmem t k hin) (List.not_mem_nil _)
  | cons tk0 rest ih =>
    obtain ⟨t0, k0⟩ := tk0
    intro tm hmem hnd t k
    simp only [List.foldl_cons]
    apply ih
    · intro t' k' hin'
      by_cases hc : (t', k') = (t0, k0)
      · obtain ⟨h1, h2⟩ := Prod.mk.injEq .. ▸ hc
        subst h1; subst h2
        rw [depIn_removeEffectFromDep_self] at hin'
        exact absurd (((hnd t' k').mem_erase_iff.mp hin').1 rfl) (fun h => h)
      · rw [depIn_removeEffectFromDep_other tm t0 k0 t' k' e hc] at hin'
        rcases List.mem_cons.mp (hmem t' k' hin') with h | h
        · exact absurd h hc
        · exact h
    · exact nodup_removeEffectFromDep tm t0 k0 e hnd

theorem depsOf_cleanup (st : RState) (e : Nat) : depsOf (cleanup st e) e = [] := by
  cases hl : lookupL st.effects e with
  | none => simp [depsOf, cleanup, lookupL_modifyL_self, hl]
  | some r => simp [depsOf, cleanup, lookupL_modifyL_self, hl]

theorem backPtrCheck_spec (st : RState) (e : Nat) (h : backPtrCheck st e = true) :
    ∀ t k, e ∈ depOf st t k → (t, k) ∈ depsOf st e := by
  intro t k hm
  simp only [depOf, depIn] at hm
  cases h1 : lookupL st.targetMap t with
  | none => rw [h1] at hm; simp [lookupL] at hm
  | some dm =>
    rw [h1] at hm
    simp only [Option.getD_some] at hm
    cases h2 : lookupL dm k with
    | none => rw [h2] at hm; simp at hm
    | some dep =>
      rw [h2] at hm
      simp only [Option.getD_some] at hm
      have hall := List.all_eq_true.mp h (t, dm) (lookupL_mem h1)
      have hall2 := List.all_eq_true.mp hall (k, dep) (lookupL_mem h2)
      exact of_decide_eq_true hall2 hm

theorem depNodupCheck_spec (st : RState) (h : depNodupCheck st = true) :
    ∀ t k, (depOf st t k).Nodup := by
  intro t k
  simp only [depOf, depIn]
  cases h1 : lookupL st.targetMap t with
  | none => simp [lookupL]
  | some dm =>
    simp only [Option.getD_some]
    cases h2 : lookupL dm k with
    | none => simp
    | some dep =>
      simp only [Option.getD_some]
      have hall := List.all_eq_true.mp h (t, dm) (lookupL_mem h1)
      have hall2 := List.all_eq_true.mp hall (k, dep) (lookupL_mem h2)
      exact of_decide_eq_true hall2

theorem cleanup_not_mem_depOf (st : RState) (e : Nat)
    (hsym : backPtrCheck st e = true) (hnd : depNodupCheck st = true) :
    ∀ t k, e ∉ depOf (cleanup st e) t k := by
  intro t k
  show e ∉ depIn (cleanup st e).targetMap t k
  have : (cleanup st e).targetMap =
      (depsOf st e).foldl (fun acc tk => removeEffectFromDep acc tk.1 tk.2 e) st.targetMap := rfl
  rw [this]
  exact foldl_remove_not_mem e (depsOf st e) st.targetMap
    (backPtrCheck_spec st e hsym) (depNodupCheck_spec st hnd) t k

theorem execReads_depsOf (e : Nat) :
    ∀ (reads : List (Nat × RKey)) (s : RState),
      s.shouldTrack = true → s.activeEffect = some e →
      (lookupL s.effects e).isSome = true →
      (∀ t k, ((t, k) ∈ depsOf s e ↔ e ∈ depOf s t k)) →
      ∀ t k, ((t, k) ∈ depsOf (execReads reads s) e ↔
               (t, k) ∈ depsOf s e ∨ (t, k) ∈ reads) := by
  intro reads
  induction reads with
  | nil =>
    intro s _ _ _ _ t k
    simp [execReads]
  | cons tk0 rest ih =>
    obtain ⟨t0, k0⟩ := tk0
    intro s hs ha hp hinv t k
    show ((t, k) ∈ depsOf (execReads rest (track s t0 k0)) e ↔ _)
    by_cases hm : e ∈ depOf s t0 k0
    · rw [track_mem_noop s t0 k0 e hs ha hm]
      rw [ih s hs ha hp hinv t k]
      have h0 : (t0, k0) ∈ depsOf s e := (hinv t0 k0).mpr hm
      constructor
      · rintro (h | h)
        · exact Or.inl h
        · exact Or.inr (List.mem_cons_of_mem _ h)
      · rintro (h | h)
        · exact Or.inl h
        · rcases List.mem_cons.mp h with h | h
          · exact Or.inl (h ▸ h0)
          · exact Or.inr h
    · have hds := track_depsOf_not_mem s t0 k0 e hs ha hm hp
      have hself := track_depOf_self s t0 k0 e hs ha hm
      have hother := fun t' k' hne => track_depOf_other s t0 k0 e t' k' hs ha hm hne
      have hs' : (track s t0 k0).shouldTrack = true := by rw [track_shouldTrack]; exact hs
      have ha' : (track s t0 k0).activeEffect = some e := by rw [track_activeEffect]; exact ha
      have hp' : (lookupL (track s t0 k0).effects e).isSome = true := by
        rw [track_effects_isSome]; exact hp
      have hinv' : ∀ t' k', ((t', k') ∈ depsOf (track s t0 k0) e ↔
          e ∈ depOf (track s t0 k0) t' k') := by
        intro t' k'
        by_cases hc : (t', k') = (t0, k0)
        · obtain ⟨h1, h2⟩ := Prod.mk.injEq .. ▸ hc
          subst h1; subst h2
          rw [hds, hself]
          simp
        · rw [hother t' k' hc, hds]
          rw [List.mem_append]
          simp only [List.mem_singleton, hc, or_false]
          exact hinv t' k'
      rw [ih (track s t0 k0) hs' ha' hp' hinv' t k]
      rw [hds]
      rw [List.mem_append, List.mem_singleton, List.mem_cons]
      tauto

/-- C5: for an active effect `e` not currently on the stack, in a
    well-formed state (dep back-pointers complete, dep-sets
    duplicate-free):
    1. after `cleanup` — which `run` performs before the body re-runs —
       `e` is a member of no dep-set at all;
    2. `cleanup` empties `e`'s owned dep list;
    3. after a full `run` whose body performs the given reads, the
       recorded deps of `e` are exactly the (target, key) pairs read
       during that run. -/
theorem c5_cleanup_and_exact_deps (st : RState) (e : Nat) (reads : List (Nat × RKey))
    (hact : activeOf st e = true) (hstk : e ∉ st.effectStack)
    (htrk : st.shouldTrack = true)
    (hsym : backPtrCheck st e = true) (hnd : depNodupCheck st = true) :
    (∀ t k, e ∉ depOf (cleanup st e) t k) ∧
    depsOf (cleanup st e) e = [] ∧
    (∀ t k, ((t, k) ∈ depsOf (runReads e reads st) e ↔ (t, k) ∈ reads)) := by
  have hclean := cleanup_not_mem_depOf st e hsym hnd
  refine ⟨hclean, depsOf_cleanup st e, ?_⟩
  intro t k
  have hp0 : (lookupL st.effects e).isSome = true := by
    cases hl : lookupL st.effects e with
    | none => rw [activeOf, hl] at hact; simp at hact
    | some r => rfl
  have hrun : runReads e reads st =
      { execReads reads { cleanup st e with
            effectStack := (cleanup st e).effectStack ++ [e], activeEffect := some e } with
        effectStack := (execReads reads { cleanup st e with
            effectStack := (cleanup st e).effectStack ++ [e],
            activeEffect := some e }).effectStack.dropLast,
        activeEffect := (execReads reads { cleanup st e with
            effectStack := (cleanup st e).effectStack ++ [e],
            activeEffect := some e }).effectStack.dropLast.getLast? } := by
    rw [runReads, run, hact]
    simp [hstk]
  set st2 : RState := { cleanup st e with
      effectStack := (cleanup st e).effectStack ++ [e], activeEffect := some e } with hst2
  have hdeps_final : depsOf (runReads e reads st) e = depsOf (execReads reads st2) e := by
    rw [hrun]
    rfl
  rw [hdeps_final]
  have hs2 : st2.shouldTrack = true := htrk
  have ha2 : st2.activeEffect = some e := rfl
  have hp2 : (lookupL st2.effects e).isSome = true := by
    show (lookupL (modifyL st.effects e _) e).isSome = true
    rw [lookupL_modifyL_isSome]
    exact hp0
  have hd2 : depsOf st2 e = [] := depsOf_cleanup st e
  have hdep2 : ∀ t' k', depOf st2 t' k' = depOf (cleanup st e) t' k' := fun _ _ => rfl
  have hinv2 : ∀ t' k', ((t', k') ∈ depsOf st2 e ↔ e ∈ depOf st2 t' k') := by
    intro t' k'
    rw [hd2, hdep2]
    simp only [List.not_mem_nil, false_iff]
    exact hclean t' k'
  rw [execReads_depsOf e reads st2 hs2 ha2 hp2 hinv2 t k]
  rw [hd2]
  simp

/-- C5 witness: effect 0 owns the dep (1, "a"); after `cleanup` it is in
    no dep-set and its dep list is empty; after a run reading only
    (2, "b"), its recorded deps are exactly that read. -/
theorem c5_witness :
    activeOf c5State 0 = true ∧
    (0 : Nat) ∉ depOf (cleanup c5State 0) 1 (.prop "a") ∧
    depsOf (cleanup c5State 0) 0 = [] ∧
    ((2, RKey.prop "b") ∈ depsOf (runReads 0 [(2, .prop "b")] c5State) 0 ↔
      (2, RKey.prop "b") ∈ [(2, RKey.prop "b")]) :=
  ⟨by decide,
   (c5_cleanup_and_exact_deps c5State 0 [(2, .prop "b")] (by decide) (by decide) (by decide)
      (by decide) (by decide)).1 1 (.prop "a"),
   (c5_cleanup_and_exact_deps c5State 0 [(2, .prop "b")] (by decide) (by decide) (by decide)
      (by decide) (by decide)).2.1,
   (c5_cleanup_and_exact_deps c5State 0 [(2, .prop "b")] (by decide) (by decide) (by decide)
      (by decide) (by decide)).2.2 2 (.prop "b")⟩

end VueReactivity
